import Mathlib

/-!
Verification of the `loggit` logging runtime (template/format engine and
file-output subsystem) against its natural-language specification.

The Rust sources are shallowly embedded: strings are modelled as `List Char`
(`String` at the API edges), machine integers as `Nat` with explicit `% 2^w`
where overflow semantics matter, filesystem and clock effects as explicit
parameters, and fallible operations as `Option`/`Except` values.
-/

deriving instance DecidableEq for Except

namespace Loggit

/-- Log levels, in Rust declaration order (`derive PartialOrd/Ord` compares
declaration order): TRACE < DEBUG < INFO < WARN < ERROR.
From `src/lib.rs`, `enum Level`. -/
inductive Level where
  | TRACE | DEBUG | INFO | WARN | ERROR
  deriving DecidableEq, Repr

/-- Discriminant of a `Level`; Rust's derived `Ord` on a C-like enum orders by
discriminant. -/
def Level.toNat : Level → Nat
  | .TRACE => 0
  | .DEBUG => 1
  | .INFO => 2
  | .WARN => 3
  | .ERROR => 4

/-- Embeds `record.level >= threshold` as compiled from Rust's derived `Ord`. -/
def Level.ge (a b : Level) : Bool := b.toNat ≤ a.toNat

/-- Rotation rules, from `src/logger/file_handler/file_manager.rs`,
`enum RotationType`: `Period(u32)` seconds, `Time(u8, u8)` daily clock time,
`Size(u64)` byte threshold. -/
inductive RotationType where
  | Period (secs : Nat)
  | Time (h m : Nat)
  | Size (bytes : Nat)
  deriving DecidableEq, Repr

/-- Decimal digit character, as produced by Rust's integer `to_string`. -/
def digitChar (d : Nat) : Char :=
  match d with
  | 0 => '0' | 1 => '1' | 2 => '2' | 3 => '3' | 4 => '4'
  | 5 => '5' | 6 => '6' | 7 => '7' | 8 => '8' | 9 => '9'
  | _ => '*'

/-- Numeric value of a decimal digit character (inverse of `digitChar`). -/
def digitVal (c : Char) : Nat :=
  match c with
  | '0' => 0 | '1' => 1 | '2' => 2 | '3' => 3 | '4' => 4
  | '5' => 5 | '6' => 6 | '7' => 7 | '8' => 8 | '9' => 9
  | _ => 10

/-- Is `c` an ASCII decimal digit? (Used to model Rust `str::parse::<uN>`.) -/
def isDigitChar (c : Char) : Bool := digitVal c ≤ 9

/-- Fuel-driven decimal rendering of a natural number (the fuel argument only
makes the recursion structural; `natDigits` supplies enough). -/
def natDigitsAux : Nat → Nat → List Char
  | 0, _ => []
  | fuel + 1, n =>
    if n < 10 then [digitChar n]
    else natDigitsAux fuel (n / 10) ++ [digitChar (n % 10)]

/-- Decimal rendering of a natural number, modelling Rust `u32::to_string`. -/
def natDigits (n : Nat) : List Char := natDigitsAux (n + 1) n

/-- Value of a decimal digit string read most-significant first. -/
def digitsVal (cs : List Char) : Nat := cs.foldl (fun acc c => acc * 10 + digitVal c) 0

/-- Model of Rust `str::parse::<uN>()` on a character list: an optional leading
`'+'`, then one or more decimal digits, value at most `max`. -/
def parseUint (cs : List Char) (max : Nat) : Option Nat :=
  let cs := match cs with
    | '+' :: rest => rest
    | other => other
  if cs ≠ [] ∧ cs.all isDigitChar then
    let v := digitsVal cs
    if v ≤ max then some v else none
  else none

/-- Split a character list at every occurrence of `sep`, modelling Rust
`str::split(sep).collect::<Vec<_>>()` (always at least one piece). -/
def splitChar (sep : Char) : List Char → List (List Char)
  | [] => [[]]
  | c :: rest =>
    let r := splitChar sep rest
    if c = sep then [] :: r
    else
      match r with
      | [] => [[c]]
      | piece :: more => (c :: piece) :: more

/-- Embeds `RotationType::try_from_string` from
`src/logger/file_handler/file_manager.rs` (lines 418–507), translated
clause by clause: a string containing `':'` is parsed as `HH:MM`; otherwise a
`" KB"/" MB"/" GB"/" TB"` suffix yields a `Size` rule whose multiplier is the
one the source assigns (`1`, `1024`, `1024*1024`, `1024*1024*1024`
respectively); otherwise a `" hour"/" day"/" week"/" month"/" year"` suffix
yields a `Period` rule in seconds. `u64`/`u32` products wrap as in release
builds. -/
def RotationType.tryFromString (text : List Char) : Option RotationType :=
  if text.contains ':' then
    let sp := splitChar ':' text
    if sp.length ≠ 2 then none
    else
      match parseUint (sp.getD 0 []) 255, parseUint (sp.getD 1 []) 255 with
      | some h, some m =>
        if ¬ (h ≤ 23) then none
        else if ¬ (m ≤ 59) then none
        else some (RotationType.Time h m)
      | _, _ => none
  else if [" KB", " MB", " GB", " TB"].any (fun s => s.data.isSuffixOf text) then
    let multiplyFactor :=
      if (" KB".data).isSuffixOf text then 1
      else if (" MB".data).isSuffixOf text then 1024
      else if (" GB".data).isSuffixOf text then 1024 * 1024
      else if (" TB".data).isSuffixOf text then 1024 * 1024 * 1024
      else 1
    let tLen := text.length
    let text := text.take (tLen - 3)
    match parseUint text (2 ^ 64 - 1) with
    | some num => some (RotationType.Size (num * multiplyFactor % 2 ^ 64))
    | none => none
  else if [" hour", " day", " week", " month", " year"].any
      (fun s => s.data.isSuffixOf text) then
    let (multiplyFactor, finishLen) :=
      if (" hour".data).isSuffixOf text then (60 * 60, 5)
      else if (" day".data).isSuffixOf text then (60 * 60 * 24, 4)
      else if (" week".data).isSuffixOf text then (60 * 60 * 24 * 7, 5)
      else if (" month".data).isSuffixOf text then (60 * 60 * 24 * 30, 6)
      else (60 * 60 * 24 * 365, 5)
    let strLen := text.length
    let textToParse := text.take (strLen - finishLen)
    match parseUint textToParse (2 ^ 32 - 1) with
    | some num => some (RotationType.Period (num * multiplyFactor % 2 ^ 32))
    | none => none
  else none

/-- String-level wrapper for `RotationType::try_from_string`. -/
def RotationType.tryFromStringS (s : String) : Option RotationType :=
  RotationType.tryFromString s.data

/-! ## Template compiler (`src/logger/formatter.rs`) -/

/-- The seven terminal colors, from `enum LogColor`. -/
inductive LogColor where
  | Red | Green | Blue | Yellow | Black | White | Purple
  deriving DecidableEq, Repr

/-- Embeds `LogColor::get_colors_str()`. -/
def LogColor.getColorsStr : List (List Char) :=
  ["red", "green", "blue", "yellow", "black", "white", "purple"].map String.data

/-- Embeds `impl From<&str> for LogColor`: an unrecognized name falls through to
`White` (after printing to stderr). -/
def LogColor.ofStr (value : List Char) : LogColor :=
  if value = "red".data then .Red
  else if value = "green".data then .Green
  else if value = "blue".data then .Blue
  else if value = "yellow".data then .Yellow
  else if value = "black".data then .Black
  else if value = "white".data then .White
  else if value = "purple".data then .Purple
  else .White

/-- Template segment kinds, from `enum LogPart`. -/
inductive LogPart where
  | Message | Time | File | Line | Date | Level
  | Text (t : List Char)
  | ModulePath
  deriving DecidableEq, Repr

/-- Embeds `LogPart::get_parts_str()` — verbatim from the source, including the
duplicated `"date"` entry and the `"text"` entry. -/
def LogPart.getPartsStr : List (List Char) :=
  ["message", "time", "date", "file", "line", "date", "level", "text", "module"].map
    String.data

/-- Embeds `impl From<&str> for LogPart`: an unrecognized name falls through to
`Text(String::new())` (after printing to stderr). -/
def LogPart.ofStr (value : List Char) : LogPart :=
  if value = "message".data then .Message
  else if value = "time".data then .Time
  else if value = "date".data then .Date
  else if value = "file".data then .File
  else if value = "line".data then .Line
  else if value = "level".data then .Level
  else if value = "module".data then .ModulePath
  else .Text []

/-- Embeds `struct LogFormatWrapper`: a segment with an optional color. -/
structure LogFormatWrapper where
  color : Option LogColor
  part : LogPart
  deriving DecidableEq, Repr

/-- Token tree built by `string_parse` (`enum ParseSymbs`). -/
inductive ParseSymbs where
  | Start
  | AndNext (next el : ParseSymbs)
  | AngleOpen
  | AngleClose
  | Text (t : List Char)
  | BracketOpen
  | BracketClose
  deriving DecidableEq, Repr

/-- Intermediate classified tokens (`enum ParseParts`). -/
inductive ParseParts where
  | End
  | Text (t : List Char)
  | Color (t : List Char)
  | BracketBlock (t : List Char)
  deriving DecidableEq, Repr

/-- Embeds `ParseParts::verify_color_block_integriy`: a `Color` must name one of the
seven colors, a `BracketBlock` must name an entry of `get_parts_str`. -/
def ParseParts.verifyColorBlockIntegriy : ParseParts → Bool
  | .Color t => decide (t ∈ LogColor.getColorsStr)
  | .BracketBlock t => decide (t ∈ LogPart.getPartsStr)
  | _ => true

/-- Errors of `parse_vec_of_parse_symb_to_parts`. -/
inductive ParseSymbToPartsError where
  | IncorrectDataGiven
  | UnexpectedError
  deriving DecidableEq, Repr

/-- Errors of `parse_parts_to_formatter`. -/
inductive ParsePartsToFormatterError where
  | UnexpectedError
  | IncorrectDataGiven
  deriving DecidableEq, Repr

/-- Errors of `parse_string_to_wrappers`. -/
inductive ParseStringToWrappersError where
  | UnableToParseSymbolsToParts (e : ParseSymbToPartsError)
  | UnableToParsePartsToFormatter (e : ParsePartsToFormatterError)
  deriving DecidableEq, Repr

/-- Embeds `string_parse`: left-to-right scan classifying `{ } < >` as structural
tokens; any other character extends the pending literal run. Before a
structural token the pending run (possibly empty) is pushed as a `Text`
node. -/
def stringParse : List Char → List Char → ParseSymbs → ParseSymbs
  | [], accText, acc1 =>
    if accText ≠ [] then .AndNext acc1 (.Text accText) else acc1
  | currChar :: rest, accText, acc1 =>
    let accToRet :=
      if currChar ∈ ['{', '}', '<', '>'] then
        ParseSymbs.AndNext acc1 (.Text accText)
      else acc1
    let strToRet := if currChar ∈ ['{', '}', '<', '>'] then [] else accText
    if currChar = '{' then stringParse rest strToRet (.AndNext accToRet .BracketOpen)
    else if currChar = '}' then stringParse rest strToRet (.AndNext accToRet .BracketClose)
    else if currChar = '<' then stringParse rest strToRet (.AndNext accToRet .AngleOpen)
    else if currChar = '>' then stringParse rest strToRet (.AndNext accToRet .AngleClose)
    else stringParse rest (strToRet ++ [currChar]) accToRet

/-- Spine of `parse_symbs_to_vec`: peel `AndNext` nodes, collecting right
elements. -/
def parseSymbsSpine : ParseSymbs → List ParseSymbs
  | .AndNext next el => el :: parseSymbsSpine next
  | e => [e]

/-- Embeds `parse_symbs_to_vec`: flatten the token tree into source order. -/
def parseSymbsToVec (symbs : ParseSymbs) : List ParseSymbs :=
  (parseSymbsSpine symbs).reverse

/-- Core of `parse_vec_of_parse_symb_to_parts`: consume the token list,
pairing each `AngleOpen`/`BracketOpen` with exactly one `Text` and the
matching closer. -/
def parseSymbsScan : List ParseSymbs → Except ParseSymbToPartsError (List ParseParts)
  | [] => .ok []
  | .Start :: rest => parseSymbsScan rest
  | .AndNext _ _ :: _ => .error .UnexpectedError
  | .Text t :: rest =>
    match parseSymbsScan rest with
    | .ok r => .ok (.Text t :: r)
    | .error e => .error e
  | .AngleOpen :: rest =>
    match rest with
    | .Text t :: .AngleClose :: rest2 =>
      match parseSymbsScan rest2 with
      | .ok r => .ok (.Color t :: r)
      | .error e => .error e
    | _ => .error .IncorrectDataGiven
  | .BracketOpen :: rest =>
    match rest with
    | .Text t :: .BracketClose :: rest2 =>
      match parseSymbsScan rest2 with
      | .ok r => .ok (.BracketBlock t :: r)
      | .error e => .error e
    | _ => .error .IncorrectDataGiven
  | .AngleClose :: _ => .error .IncorrectDataGiven
  | .BracketClose :: _ => .error .IncorrectDataGiven

/-- Embeds `parse_vec_of_parse_symb_to_parts`: scan the tokens, then reject the
result if any part fails `verify_color_block_integriy`. -/
def parseVecOfParseSymbToParts (symbs : List ParseSymbs) :
    Except ParseSymbToPartsError (List ParseParts) :=
  match parseSymbsScan symbs with
  | .error e => .error e
  | .ok res =>
    if false ∈ res.map ParseParts.verifyColorBlockIntegriy then
      .error .IncorrectDataGiven
    else
      .ok res

/-- Embeds `parse_parts_to_formatter`, translated clause by clause. In the source,
a second color tag while a region is open is matched with the guard
`c if c == curr_color.unwrap()` where `c` binds the *currently open* color
(not the new tag), so the guard compares the open color with itself; the
mismatch arm returning an error is unreachable. The translation keeps that
self-comparison. -/
def parsePartsToFormatter (parts : List ParseParts) :
    Except ParsePartsToFormatterError (List LogFormatWrapper) :=
  go parts [] none
where
  /-- Loop of `parse_parts_to_formatter` with accumulated output and the
  currently open color. -/
  go : List ParseParts → List LogFormatWrapper → Option LogColor →
      Except ParsePartsToFormatterError (List LogFormatWrapper)
  | [], res, currColor =>
    if currColor.isSome then .error .IncorrectDataGiven else .ok res
  | .End :: rest, res, currColor => go rest res currColor
  | .Text t :: rest, res, currColor =>
    go rest (res ++ [⟨currColor, .Text t⟩]) currColor
  | .Color t :: rest, res, currColor =>
    match currColor with
    | none => go rest res (some (LogColor.ofStr t))
    | some color =>
      if color = color then go rest res none
      else .error .IncorrectDataGiven
  | .BracketBlock t :: rest, res, currColor =>
    go rest (res ++ [⟨currColor, LogPart.ofStr t⟩]) currColor

/-- Embeds `parse_string_to_wrappers`: full pipeline from a template string to a
list of colored segments. -/
def parseStringToWrappers (text : List Char) :
    Except ParseStringToWrappersError (List LogFormatWrapper) :=
  match parseVecOfParseSymbToParts (parseSymbsToVec (stringParse text [] .Start)) with
  | .error e => .error (.UnableToParseSymbolsToParts e)
  | .ok parts =>
    match parsePartsToFormatter parts with
    | .ok r => .ok r
    | .error e => .error (.UnableToParsePartsToFormatter e)

/-- String-level wrapper for `parse_string_to_wrappers` /
`LogFormatter::parse_from_string`. -/
def parseStringToWrappersS (s : String) :
    Except ParseStringToWrappersError (List LogFormatWrapper) :=
  parseStringToWrappers s.data

/-! ## File names (`src/logger/file_handler/file_name.rs`) -/

/-- Embeds `struct FileName { file_name, file_num: Option<u32>, file_extension }`. -/
structure FileName where
  fileName : List Char
  fileNum : Option Nat
  fileExtension : List Char
  deriving DecidableEq, Repr

/-- Embeds `FileName::increase_num`: `None → Some 1`, `Some n → Some (n+1)`. -/
def FileName.increaseNum (f : FileName) : FileName :=
  match f.fileNum with
  | none => { f with fileNum := some 1 }
  | some num => { f with fileNum := some (num + 1) }

/-- Embeds `impl From<FileName> for String` / `get_full_file_name`: the string form
`base[(num)].extension`. -/
def FileName.fullName (f : FileName) : List Char :=
  f.fileName ++
    (match f.fileNum with
     | some num => ['('] ++ natDigits num ++ [')']
     | none => []) ++
    ['.'] ++ f.fileExtension

/-! ## File manager (`src/logger/file_handler/file_manager.rs`)

Filesystem and clock effects are made explicit: the set of existing file
names is a `List (List Char)`, the current Unix timestamp and local clock
are `Nat` parameters, and each fallible I/O step is an explicit `Bool`
outcome parameter. -/

/-- Embeds `FileManager::create_new_file`, fuel-driven (the fuel only bounds the
collision loop; `createNewFile_terminates` shows `|fs| + 1` always
suffices). Each iteration checks whether the *currently rendered* name
exists: if it does, the numeric disambiguator is incremented and the loop
retries; if it does not, the template is re-expanded at the current moment
(the `fresh` parameter is that expansion) and `File::create` is issued on
the fresh name — with no further existence check (`File::create` truncates
an existing file rather than failing). -/
def createNewFileLoop (fs : List (List Char)) (fresh : FileName) :
    FileName → Nat → Option (FileName × List (List Char))
  | _, 0 => none
  | fn, fuel + 1 =>
    if fn.fullName ∈ fs then createNewFileLoop fs fresh fn.increaseNum fuel
    else some (fresh, fresh.fullName :: fs)

/-- Embeds `FileManager::create_new_file` with the fuel the termination theorem
justifies. -/
def createNewFile (fs : List (List Char)) (fn fresh : FileName) :
    Option (FileName × List (List Char)) :=
  createNewFileLoop fs fresh fn (fs.length + 1)

/-- Embeds `enum CompressionType`. -/
inductive CompressionType where
  | Zip
  deriving DecidableEq, Repr

/-- Embeds `CompressionType::try_from_string`: exactly `"zip"`. -/
def CompressionType.tryFromString (text : List Char) : Option CompressionType :=
  if text = "zip".data then some .Zip else none

/-- Embeds `struct Rotation { rotation_type, next_rotation: u64 }`. -/
structure Rotation where
  rotationType : RotationType
  nextRotation : Nat
  deriving DecidableEq, Repr

/-- Embeds `Rotation::init_from_rotation_type`, with the clock made explicit:
`nowUnix` is `chrono::Utc::now().timestamp()`, `currH`/`currM` the local
clock hour/minute. `Period p` sets the trigger to `now + p`; `Time h m`
to the next future occurrence of `h:m` (in the "tomorrow" branch the source
computes `(h * 60 * 60 + m * 60)` in `u8` arithmetic, wrapping at 256, and
only then casts to `u64`; the translation keeps that wrap); `Size s` keeps
the threshold `s` itself. -/
def Rotation.initFromRotationType (nowUnix currH currM : Nat) :
    RotationType → Rotation
  | .Period p => ⟨.Period p, nowUnix + p⟩
  | .Time h m =>
    if currH < h ∨ (currH = h ∧ currM < m) then
      let secsCurr := currH * 60 * 60 + currM * 60
      let secsDesirable := h * 60 * 60 + m * 60
      ⟨.Time h m, nowUnix + (secsDesirable - secsCurr)⟩
    else
      let secsTillTomorrow := 24 * 60 * 60 - (currH * 60 * 60 + currM * 60)
      let secsDesirable := (h * 60 % 256 * 60 % 256 + m * 60 % 256) % 256
      ⟨.Time h m, nowUnix + secsTillTomorrow + secsDesirable⟩
  | .Size s => ⟨.Size s, s⟩

/-- Embeds `struct FileConstraints`. -/
structure FileConstraints where
  compression : Option CompressionType
  rotation : List Rotation
  deriving DecidableEq, Repr

/-- Embeds `FileManager::add_rotation`: parse the rule string; on success push the
initialized rotation and return `true`, otherwise return `false` leaving the
constraints untouched. -/
def FileConstraints.addRotation (fc : FileConstraints)
    (nowUnix currH currM : Nat) (s : List Char) : Bool × FileConstraints :=
  match RotationType.tryFromString s with
  | none => (false, fc)
  | some rt =>
    (true,
      { fc with
        rotation := fc.rotation ++ [Rotation.initFromRotationType nowUnix currH currM rt] })

/-- Embeds `FileManager::set_compression`: parse the compression string; on success
store it and return `true`, otherwise return `false` leaving the setting
untouched. -/
def FileConstraints.setCompression (fc : FileConstraints) (s : List Char) :
    Bool × FileConstraints :=
  match CompressionType.tryFromString s with
  | none => (false, fc)
  | some c => (true, { fc with compression := some c })

/-- Embeds `FileManager::get_path_to_compression_foler`: the hardcoded archive
directory. -/
def getPathToCompressionFoler : List Char := "./loggit_archives/".data

/-- Path of the zip file written by `FileManager::compress_zip` for a log
file at `path`: `format!("./loggit_archives/{}.zip", path)`. -/
def compressZipPath (path : List Char) : List Char :=
  getPathToCompressionFoler ++ path ++ ".zip".data

/-- Embeds `default_archive_dir` from `src/logger/archivation.rs`: the explicitly
configured `Config.archive_dir` when present, otherwise the platform
local-data directory (the `sysLocalData` parameter models
`dirs::data_local_dir()`) joined with `loggit/archives`. -/
def defaultArchiveDir (archiveDirCfg : Option (List Char))
    (sysLocalData : List Char) : List Char :=
  match archiveDirCfg with
  | some p => p
  | none => sysLocalData ++ "/loggit/archives".data

/-- Success results of `verify_constraints`. -/
inductive VerifyConstraintsOk where
  | ConstraintsPassed
  | NewFileCreated
  deriving DecidableEq, Repr

/-- Embeds `enum VerifyConstraintsError`. -/
inductive VerifyConstraintsError where
  | UnableToVerifyFileExistence
  | UnableToCreateFile
  | UnableToOpenFile
  | UnableToGetFileMetadata
  | UnableToDeleteOldLogFile
  | UnableToCompressFile
  | UnableToCreateNewFile
  deriving DecidableEq, Repr

/-- Result type of `verify_constraints`. -/
abbrev VCRes := Except VerifyConstraintsError VerifyConstraintsOk

/-- Does a rotation rule fire now? `Period`/`Time` rules compare the current
Unix timestamp against the trigger, `Size` rules compare the current file
size (both strictly: `>`); from the two match arms of the loop body in
`verify_constraints`. -/
def rotFired (nowUnix fSize : Nat) (rot : Rotation) : Bool :=
  match rot.rotationType with
  | .Period _ | .Time _ _ => nowUnix > rot.nextRotation
  | .Size _ => fSize > rot.nextRotation

/-- The constraint-scan loop of `FileManager::verify_constraints` (lines
272–390), translated check by check. Loop state: the rotation list, the scan
index `idx`, `last` (the source's `last_idx`, `none` for `-1`), the pending
result `res`, and a count of physical rotations performed (calls of
`create_new_file` that succeeded). `regen` is
`Rotation::init_from_rotation_type` at the current instant; `createOk`,
`compressOk`, `deleteOk` are the outcomes of the three I/O steps of a
rotation. Fuel-driven; `none` models nontermination or an out-of-bounds
index, and `verifyConstraints` supplies fuel shown sufficient. -/
def vcLoop (nowUnix fSize : Nat) (regen : RotationType → Rotation)
    (createOk compressOk deleteOk : Bool) :
    Nat → List Rotation → Nat → Option Nat → VCRes → Nat →
    Option (VCRes × List Rotation × Nat)
  | 0, _, _, _, _, _ => none
  | fuel + 1, rots, idx, last, res, count =>
    if idx ≥ rots.length ∧ last = none then some (res, rots, count)
    else if last = some idx then some (res, rots, count)
    else
      let idx := if idx ≥ rots.length ∧ last ≠ none then 0 else idx
      if last = some 0 then some (res, rots, count)
      else
        match rots[idx]? with
        | none => none
        | some rot =>
          if rotFired nowUnix fSize rot ∨ last ≠ none then
            let rots := rots.set idx (regen rot.rotationType)
            if last = none then
              if createOk then
                let res :=
                  if compressOk then
                    if deleteOk then Except.ok .NewFileCreated
                    else Except.error .UnableToDeleteOldLogFile
                  else Except.error .UnableToCompressFile
                vcLoop nowUnix fSize regen createOk compressOk deleteOk
                  fuel rots (idx + 1) (some idx) res (count + 1)
              else some (Except.error .UnableToCreateNewFile, rots, count)
            else
              vcLoop nowUnix fSize regen createOk compressOk deleteOk
                fuel rots (idx + 1) last res count
          else
            vcLoop nowUnix fSize regen createOk compressOk deleteOk
              fuel rots (idx + 1) last res count

/-- Embeds `FileManager::verify_constraints` (the constraint-scan part; the
preceding ensure-file/open/metadata steps are modelled as having succeeded
with measured size `fSize`). -/
def verifyConstraints (nowUnix fSize : Nat) (regen : RotationType → Rotation)
    (createOk compressOk deleteOk : Bool) (rots : List Rotation) :
    Option (VCRes × List Rotation × Nat) :=
  vcLoop nowUnix fSize regen createOk compressOk deleteOk
    (2 * rots.length + 3) rots 0 none (Except.ok .ConstraintsPassed) 0

/-- Embeds `enum WriteLogError`. -/
inductive WriteLogError where
  | UnableToWriteToFile
  deriving DecidableEq, Repr

/-- Embeds `FileManager::write_log`: calls `verify_constraints`, *binds its result
to an unused variable*, then appends the line to the current file; the
returned result depends only on the append (`helper::write_to_file`,
outcome `appendOk`). The second component is the discarded
`verify_constraints` outcome (with the mutated rotation state), the third
records that the append was attempted. -/
def writeLog (nowUnix fSize : Nat) (regen : RotationType → Rotation)
    (createOk compressOk deleteOk : Bool) (rots : List Rotation)
    (appendOk : Bool) :
    Except WriteLogError Unit × Option (VCRes × List Rotation × Nat) × Bool :=
  let constrs := verifyConstraints nowUnix fSize regen createOk compressOk deleteOk rots
  let appendRes : Except WriteLogError Unit :=
    if appendOk then Except.ok () else Except.error .UnableToWriteToFile
  (appendRes, constrs, true)

/-! ## Level filtering (`src/logger.rs`, `macro_handler` / `log_handler`) -/

/-- The slice of `Config` that decides whether a record is emitted. -/
structure ConfigView where
  level : Level
  printToTerminal : Bool
  fileManagerSet : Bool
  deriving DecidableEq, Repr

/-- Embeds `log_handler`: prints when `print_to_terminal` is set, writes to the file
when a file manager is installed. Result: (terminal output produced, file
write performed). -/
def logHandler (cfg : ConfigView) : Bool × Bool :=
  (cfg.printToTerminal, cfg.fileManagerSet)

/-- Embeds `macro_handler`: forwards to `log_handler` iff
`level >= get_log_level()`. -/
def dispatchLog (cfg : ConfigView) (level : Level) : Bool × Bool :=
  if level.ge cfg.level then logHandler cfg else (false, false)

/-! ## Claim-side definitions and proof helpers -/

/-- Iterated `FileName.increase_num` (the `i`-th collision probe of the
`create_new_file` loop starts from `bumpIter i fn`). -/
def bumpIter : Nat → FileName → FileName
  | 0, f => f
  | i + 1, f => bumpIter i f.increaseNum

/-- Closed form of the disambiguator after `i` bumps. -/
def probeNum (fn : FileName) (i : Nat) : Option Nat :=
  match fn.fileNum with
  | none => if i = 0 then none else some i
  | some k => some (k + i)

/-- Collision behaviour described by claim C5 (the spec's words, *not* the
source): when the currently rendered path exists, first re-expand the
template at the current moment (`fresh`), and only if that freshly expanded
name also collides fall back to incrementing the numeric disambiguator (of
the fresh name) until a free name is found; when the rendered path does not
exist, create it. Fuel-driven like the code model. -/
def createNewFileSpec (fs : List (List Char)) (fn fresh : FileName) :
    Option (FileName × List (List Char)) :=
  if fn.fullName ∈ fs then
    if fresh.fullName ∈ fs then
      specIncLoop fresh (fs.length + 1)
    else some (fresh, fresh.fullName :: fs)
  else some (fn, fn.fullName :: fs)
where
  /-- Increment the fresh name's disambiguator until it no longer collides. -/
  specIncLoop : FileName → Nat → Option (FileName × List (List Char))
    | _, 0 => none
    | f, fuel + 1 =>
      if f.increaseNum.fullName ∈ fs then specIncLoop f.increaseNum fuel
      else some (f.increaseNum, f.increaseNum.fullName :: fs)

/-- Result value produced by the rotation branch of `verify_constraints`,
as a function of the archive/delete outcomes. -/
def rotResult (compressOk deleteOk : Bool) : VCRes :=
  if compressOk then
    if deleteOk then .ok .NewFileCreated else .error .UnableToDeleteOldLogFile
  else .error .UnableToCompressFile

/-! ## Supporting lemmas -/

theorem digitVal_digitChar {d : Nat} (h : d < 10) : digitVal (digitChar d) = d := by
  interval_cases d <;> rfl

theorem digitsVal_append_singleton (l : List Char) (c : Char) :
    digitsVal (l ++ [c]) = digitsVal l * 10 + digitVal c := by
  simp [digitsVal, List.foldl_append]

theorem digitsVal_natDigitsAux : ∀ fuel n, n < fuel →
    digitsVal (natDigitsAux fuel n) = n := by
  intro fuel
  induction fuel with
  | zero => intro n h; omega
  | succ f ih =>
    intro n h
    by_cases h10 : n < 10
    · simp [natDigitsAux, h10, digitsVal, digitVal_digitChar h10]
    · have hd : n / 10 < f := by
        have : n / 10 < n := Nat.div_lt_self (by omega) (by omega)
        omega
      simp only [natDigitsAux, if_neg h10]
      rw [digitsVal_append_singleton, ih _ hd, digitVal_digitChar (Nat.mod_lt _ (by omega))]
      omega

theorem digitsVal_natDigits (n : Nat) : digitsVal (natDigits n) = n :=
  digitsVal_natDigitsAux (n + 1) n (Nat.lt_succ_self n)

theorem natDigits_injective {m n : Nat} (h : natDigits m = natDigits n) : m = n := by
  have := digitsVal_natDigits m
  rw [h, digitsVal_natDigits] at this
  omega

/-- The rendered file name determines the disambiguator (for a fixed base
name and extension). -/
theorem fullName_num_inj {nm ext : List Char} {a b : Option Nat}
    (h : FileName.fullName ⟨nm, a, ext⟩ = FileName.fullName ⟨nm, b, ext⟩) : a = b := by
  unfold FileName.fullName at h
  simp only at h
  rw [List.append_assoc, List.append_assoc, List.append_assoc, List.append_assoc] at h
  have h2 := List.append_cancel_left h
  match a, b with
  | none, none => rfl
  | none, some n => simp at h2
  | some m, none => simp at h2
  | some m, some n =>
    simp only [List.cons_append, List.append_assoc, List.cons.injEq, true_and] at h2
    rw [← List.append_assoc, ← List.append_assoc] at h2
    have h3 := List.append_cancel_right h2
    simp only [List.nil_append] at h3
    exact congrArg some (natDigits_injective h3)

theorem increaseNum_fileName (f : FileName) : f.increaseNum.fileName = f.fileName := by
  unfold FileName.increaseNum; cases f.fileNum <;> rfl

theorem increaseNum_fileExtension (f : FileName) :
    f.increaseNum.fileExtension = f.fileExtension := by
  unfold FileName.increaseNum; cases f.fileNum <;> rfl

theorem bumpIter_fileName (i : Nat) (f : FileName) :
    (bumpIter i f).fileName = f.fileName := by
  induction i generalizing f with
  | zero => rfl
  | succ j ih => rw [bumpIter, ih, increaseNum_fileName]

theorem bumpIter_fileExtension (i : Nat) (f : FileName) :
    (bumpIter i f).fileExtension = f.fileExtension := by
  induction i generalizing f with
  | zero => rfl
  | succ j ih => rw [bumpIter, ih, increaseNum_fileExtension]

theorem probeNum_increaseNum (fn : FileName) (i : Nat) :
    probeNum fn (i + 1) = probeNum fn.increaseNum i := by
  unfold probeNum FileName.increaseNum
  match h : fn.fileNum with
  | none => simp [h]; omega
  | some k => simp [h]; omega

theorem bumpIter_fileNum (i : Nat) (fn : FileName) :
    (bumpIter i fn).fileNum = probeNum fn i := by
  induction i generalizing fn with
  | zero =>
    unfold bumpIter probeNum
    cases h : fn.fileNum <;> simp [h]
  | succ j ih => rw [bumpIter, ih, ← probeNum_increaseNum]

theorem probeNum_inj (fn : FileName) {i j : Nat}
    (h : probeNum fn i = probeNum fn j) : i = j := by
  unfold probeNum at h
  match hn : fn.fileNum with
  | none =>
    rw [hn] at h
    by_cases hi : i = 0 <;> by_cases hj : j = 0 <;> simp [hi, hj] at h <;> omega
  | some k => rw [hn] at h; simp at h; omega

/-- Probe names of the collision loop are pairwise distinct. -/
theorem bumpIter_fullName_inj (fn : FileName) {i j : Nat}
    (h : (bumpIter i fn).fullName = (bumpIter j fn).fullName) : i = j := by
  have hi : bumpIter i fn =
      ⟨fn.fileName, probeNum fn i, fn.fileExtension⟩ := by
    cases hb : bumpIter i fn with
    | mk a b c =>
      have h1 := bumpIter_fileName i fn
      have h2 := bumpIter_fileExtension i fn
      have h3 := bumpIter_fileNum i fn
      rw [hb] at h1 h2 h3
      simp_all
  have hj : bumpIter j fn =
      ⟨fn.fileName, probeNum fn j, fn.fileExtension⟩ := by
    cases hb : bumpIter j fn with
    | mk a b c =>
      have h1 := bumpIter_fileName j fn
      have h2 := bumpIter_fileExtension j fn
      have h3 := bumpIter_fileNum j fn
      rw [hb] at h1 h2 h3
      simp_all
  rw [hi, hj] at h
  exact probeNum_inj fn (fullName_num_inj h)

/-- Pigeonhole: among the first `|fs| + 1` probes some name is free. -/
theorem exists_free_probe (fs : List (List Char)) (fn : FileName) :
    ∃ i < fs.length + 1, (bumpIter i fn).fullName ∉ fs := by
  by_contra hall
  push_neg at hall
  set P : List (List Char) :=
    (List.range (fs.length + 1)).map (fun i => (bumpIter i fn).fullName) with hP
  have hnodup : P.Nodup := by
    refine List.Nodup.map_on ?_ (List.nodup_range _)
    intro x _ y _ hxy
    exact bumpIter_fullName_inj fn hxy
  have hsub : P ⊆ fs := by
    intro s hs
    rw [hP, List.mem_map] at hs
    obtain ⟨i, hi, rfl⟩ := hs
    exact hall i (List.mem_range.mp hi)
  have hcard : P.toFinset.card = P.length := List.toFinset_card_of_nodup hnodup
  have hlen : P.length = fs.length + 1 := by simp [hP]
  have hsubF : P.toFinset ⊆ fs.toFinset := by
    intro x hx
    rw [List.mem_toFinset] at hx ⊢
    exact hsub hx
  have := Finset.card_le_card hsubF
  have := fs.toFinset_card_le
  omega

/-- If some probe within the fuel bound is free, the collision loop returns
the fresh expansion and records it. -/
theorem createNewFileLoop_of_free (fs : List (List Char)) (fresh : FileName) :
    ∀ fuel fn, (∃ i < fuel, (bumpIter i fn).fullName ∉ fs) →
      createNewFileLoop fs fresh fn fuel = some (fresh, fresh.fullName :: fs) := by
  intro fuel
  induction fuel with
  | zero => intro fn ⟨i, hi, _⟩; omega
  | succ f ih =>
    intro fn ⟨i, hi, hfree⟩
    by_cases hmem : fn.fullName ∈ fs
    · have hi0 : i ≠ 0 := by
        intro h0; rw [h0] at hfree; exact hfree hmem
      obtain ⟨j, rfl⟩ : ∃ j, i = j + 1 := ⟨i - 1, by omega⟩
      rw [createNewFileLoop, if_pos hmem]
      exact ih fn.increaseNum ⟨j, by omega, by rwa [bumpIter] at hfree⟩
    · rw [createNewFileLoop, if_neg hmem]

/-- Scanning a run of non-structural characters just extends the pending
literal accumulator. -/
theorem stringParse_run (cs : List Char) (h : ∀ c ∈ cs, c ∉ ['{', '}', '<', '>']) :
    ∀ rest acc acc1, stringParse (cs ++ rest) acc acc1 = stringParse rest (acc ++ cs) acc1 := by
  induction cs with
  | nil => intro rest acc acc1; simp
  | cons c cs' ih =>
    intro rest acc acc1
    have hc := h c (List.mem_cons_self c cs')
    simp only [List.mem_cons, List.not_mem_nil, or_false] at hc
    push_neg at hc
    obtain ⟨h1, h2, h3, h4⟩ := hc
    rw [List.cons_append, stringParse]
    simp only [List.mem_cons, List.not_mem_nil, or_false, h1, h2, h3, h4,
      or_self, if_false, ite_false]
    rw [ih (fun d hd => h d (List.mem_cons_of_mem c hd)) rest (acc ++ [c]) acc1]
    simp

/-- The tokenizer is a left fold: scanning `xs ++ ys` first reaches some
intermediate accumulator state after `xs`. -/
theorem stringParse_append (xs : List Char) :
    ∀ ys acc s, ∃ acc2 s2, stringParse (xs ++ ys) acc s = stringParse ys acc2 s2 := by
  induction xs with
  | nil => intro ys acc s; exact ⟨acc, s, rfl⟩
  | cons c rest ih =>
    intro ys acc s
    rw [List.cons_append, stringParse]
    split_ifs with h1 h2 h3 h4 <;> exact ih ys _ _

theorem stringParse_step_bracketOpen (rest acc : List Char) (s : ParseSymbs) :
    stringParse ('{' :: rest) acc s =
      stringParse rest [] (.AndNext (.AndNext s (.Text acc)) .BracketOpen) := rfl

theorem stringParse_step_bracketClose (rest acc : List Char) (s : ParseSymbs) :
    stringParse ('}' :: rest) acc s =
      stringParse rest [] (.AndNext (.AndNext s (.Text acc)) .BracketClose) := rfl

theorem stringParse_step_angleOpen (rest acc : List Char) (s : ParseSymbs) :
    stringParse ('<' :: rest) acc s =
      stringParse rest [] (.AndNext (.AndNext s (.Text acc)) .AngleOpen) := rfl

theorem stringParse_step_angleClose (rest acc : List Char) (s : ParseSymbs) :
    stringParse ('>' :: rest) acc s =
      stringParse rest [] (.AndNext (.AndNext s (.Text acc)) .AngleClose) := rfl

theorem stringParse_step_literal (c : Char) (h : c ∉ ['{', '}', '<', '>'])
    (rest acc : List Char) (s : ParseSymbs) :
    stringParse (c :: rest) acc s = stringParse rest (acc ++ [c]) s := by
  simp only [List.mem_cons, List.not_mem_nil, or_false] at h
  push_neg at h
  obtain ⟨h1, h2, h3, h4⟩ := h
  rw [stringParse]
  simp only [List.mem_cons, List.not_mem_nil, or_false, h1, h2, h3, h4,
    or_self, if_false, ite_false]

theorem parseSymbsSpine_stringParse (b : List Char) :
    ∀ acc s, ∃ ts, parseSymbsSpine (stringParse b acc s) = ts ++ parseSymbsSpine s := by
  induction b with
  | nil =>
    intro acc s
    rw [stringParse]
    by_cases h : acc ≠ []
    · rw [if_pos h]
      exact ⟨[.Text acc], rfl⟩
    · rw [if_neg h]
      exact ⟨[], rfl⟩
  | cons c rest ih =>
    intro acc s
    by_cases h1 : c = '{'
    · subst h1
      rw [stringParse_step_bracketOpen]
      obtain ⟨ts, hts⟩ := ih [] (.AndNext (.AndNext s (.Text acc)) .BracketOpen)
      exact ⟨ts ++ [.BracketOpen, .Text acc], by rw [hts]; simp [parseSymbsSpine]⟩
    by_cases h2 : c = '}'
    · subst h2
      rw [stringParse_step_bracketClose]
      obtain ⟨ts, hts⟩ := ih [] (.AndNext (.AndNext s (.Text acc)) .BracketClose)
      exact ⟨ts ++ [.BracketClose, .Text acc], by rw [hts]; simp [parseSymbsSpine]⟩
    by_cases h3 : c = '<'
    · subst h3
      rw [stringParse_step_angleOpen]
      obtain ⟨ts, hts⟩ := ih [] (.AndNext (.AndNext s (.Text acc)) .AngleOpen)
      exact ⟨ts ++ [.AngleOpen, .Text acc], by rw [hts]; simp [parseSymbsSpine]⟩
    by_cases h4 : c = '>'
    · subst h4
      rw [stringParse_step_angleClose]
      obtain ⟨ts, hts⟩ := ih [] (.AndNext (.AndNext s (.Text acc)) .AngleClose)
      exact ⟨ts ++ [.AngleClose, .Text acc], by rw [hts]; simp [parseSymbsSpine]⟩
    · rw [stringParse_step_literal c (by simp [h1, h2, h3, h4]) rest acc s]
      exact ih (acc ++ [c]) s

theorem parseSymbsScan_step_start (L : List ParseSymbs) :
    parseSymbsScan (.Start :: L) = parseSymbsScan L := rfl

theorem parseSymbsScan_step_text (t : List Char) (L : List ParseSymbs) :
    parseSymbsScan (.Text t :: L) =
      (match parseSymbsScan L with
       | .ok r => .ok (.Text t :: r)
       | .error e => .error e) := rfl

theorem parseSymbsScan_step_angle (u : List Char) (L : List ParseSymbs) :
    parseSymbsScan (.AngleOpen :: .Text u :: .AngleClose :: L) =
      (match parseSymbsScan L with
       | .ok r => .ok (.Color u :: r)
       | .error e => .error e) := rfl

theorem parseSymbsScan_step_bracket (u : List Char) (L : List ParseSymbs) :
    parseSymbsScan (.BracketOpen :: .Text u :: .BracketClose :: L) =
      (match parseSymbsScan L with
       | .ok r => .ok (.BracketBlock u :: r)
       | .error e => .error e) := rfl

/-- If the token scan succeeds on a stream containing a literal
`BracketOpen, Text name, BracketClose` run, the resulting parts contain
`BracketBlock name`. -/
theorem parseSymbsScan_mem_bracket :
    ∀ n X Y name parts, (X : List ParseSymbs).length ≤ n →
      parseSymbsScan (X ++ .BracketOpen :: .Text name :: .BracketClose :: Y) = .ok parts →
      .BracketBlock name ∈ parts := by
  intro n
  induction n with
  | zero =>
    intro X Y name parts hlen hscan
    have hX : X = [] := List.eq_nil_of_length_eq_zero (by omega)
    subst hX
    rw [List.nil_append, parseSymbsScan_step_bracket] at hscan
    cases hrec : parseSymbsScan Y with
    | ok r =>
      rw [hrec] at hscan
      simp only [Except.ok.injEq] at hscan
      subst hscan
      exact List.mem_cons_self _ _
    | error e =>
      rw [hrec] at hscan
      exact Except.noConfusion hscan
  | succ m ih =>
    intro X Y name parts hlen hscan
    rcases X with _ | ⟨t, X2⟩
    · rw [List.nil_append, parseSymbsScan_step_bracket] at hscan
      cases hrec : parseSymbsScan Y with
      | ok r =>
        rw [hrec] at hscan
        simp only [Except.ok.injEq] at hscan
        subst hscan
        exact List.mem_cons_self _ _
      | error e =>
        rw [hrec] at hscan
        exact Except.noConfusion hscan
    rcases t with _ | ⟨a, b⟩ | _ | _ | u | _ | _
    · rw [List.cons_append, parseSymbsScan_step_start] at hscan
      exact ih X2 Y name parts (by simp at hlen; omega) hscan
    · exact Except.noConfusion hscan
    · -- AngleOpen head
      rcases X2 with _ | ⟨a, X3⟩
      · exact Except.noConfusion hscan
      rcases a with _ | ⟨x, y⟩ | _ | _ | u | _ | _
      · exact Except.noConfusion hscan
      · exact Except.noConfusion hscan
      · exact Except.noConfusion hscan
      · exact Except.noConfusion hscan
      · -- AngleOpen :: Text u :: X3
        rcases X3 with _ | ⟨b, X4⟩
        · exact Except.noConfusion hscan
        rcases b with _ | ⟨x, y⟩ | _ | _ | v | _ | _
        · exact Except.noConfusion hscan
        · exact Except.noConfusion hscan
        · exact Except.noConfusion hscan
        · -- AngleOpen :: Text u :: AngleClose :: X4
          simp only [List.cons_append] at hscan
          rw [parseSymbsScan_step_angle] at hscan
          cases hrec : parseSymbsScan (X4 ++ .BracketOpen :: .Text name :: .BracketClose :: Y) with
          | ok r =>
            rw [hrec] at hscan
            simp only [Except.ok.injEq] at hscan
            subst hscan
            exact List.mem_cons_of_mem _ (ih X4 Y name r (by simp at hlen; omega) hrec)
          | error e =>
            rw [hrec] at hscan
            exact Except.noConfusion hscan
        · exact Except.noConfusion hscan
        · exact Except.noConfusion hscan
        · exact Except.noConfusion hscan
      · exact Except.noConfusion hscan
      · exact Except.noConfusion hscan
    · exact Except.noConfusion hscan
    · -- Text head
      rw [List.cons_append, parseSymbsScan_step_text] at hscan
      cases hrec : parseSymbsScan (X2 ++ .BracketOpen :: .Text name :: .BracketClose :: Y) with
      | ok r =>
        rw [hrec] at hscan
        simp only [Except.ok.injEq] at hscan
        subst hscan
        exact List.mem_cons_of_mem _ (ih X2 Y name r (by simp at hlen; omega) hrec)
      | error e =>
        rw [hrec] at hscan
        exact Except.noConfusion hscan
    · -- BracketOpen head
      rcases X2 with _ | ⟨a, X3⟩
      · exact Except.noConfusion hscan
      rcases a with _ | ⟨x, y⟩ | _ | _ | u | _ | _
      · exact Except.noConfusion hscan
      · exact Except.noConfusion hscan
      · exact Except.noConfusion hscan
      · exact Except.noConfusion hscan
      · -- BracketOpen :: Text u :: X3
        rcases X3 with _ | ⟨b, X4⟩
        · exact Except.noConfusion hscan
        rcases b with _ | ⟨x, y⟩ | _ | _ | v | _ | _
        · exact Except.noConfusion hscan
        · exact Except.noConfusion hscan
        · exact Except.noConfusion hscan
        · exact Except.noConfusion hscan
        · exact Except.noConfusion hscan
        · exact Except.noConfusion hscan
        · -- BracketOpen :: Text u :: BracketClose :: X4
          simp only [List.cons_append] at hscan
          rw [parseSymbsScan_step_bracket] at hscan
          cases hrec : parseSymbsScan (X4 ++ .BracketOpen :: .Text name :: .BracketClose :: Y) with
          | ok r =>
            rw [hrec] at hscan
            simp only [Except.ok.injEq] at hscan
            subst hscan
            exact List.mem_cons_of_mem _ (ih X4 Y name r (by simp at hlen; omega) hrec)
          | error e =>
            rw [hrec] at hscan
            exact Except.noConfusion hscan
      · exact Except.noConfusion hscan
      · exact Except.noConfusion hscan
    · exact Except.noConfusion hscan

/-- With `last_idx = 0` the `verify_constraints` loop returns immediately:
after a rotation triggered by the rule at index 0, no further rule is
visited. -/
theorem vcLoop_stop_last_zero (nowUnix fSize : Nat) (regen : RotationType → Rotation)
    (cOk compOk dOk : Bool) (fuel : Nat) (rots : List Rotation) (idx : Nat)
    (res : VCRes) (count : Nat) (hf : 0 < fuel) :
    vcLoop nowUnix fSize regen cOk compOk dOk fuel rots idx (some 0) res count =
      some (res, rots, count) := by
  obtain ⟨f, rfl⟩ : ∃ f, fuel = f + 1 := ⟨fuel - 1, by omega⟩
  rw [vcLoop]
  by_cases h1 : idx ≥ rots.length ∧ (some 0 : Option Nat) = none
  · simp at h1
  · rw [if_neg h1]
    by_cases h2 : (some 0 : Option Nat) = some idx
    · rw [if_pos h2]
    · rw [if_neg h2]
      simp

/-- Left wrap-around phase: with `last = some k` (`0 < k < |rots|`), scanning
from `idx ≤ k` regenerates exactly the rules at indices `[idx, k)` and stops
at `k`. -/
theorem vcLoop_left (nowUnix fSize : Nat) (regen : RotationType → Rotation)
    (cOk compOk dOk : Bool) (k : Nat) :
    ∀ fuel rots idx res count, 0 < k → k < (rots : List Rotation).length → idx ≤ k →
      k - idx < fuel →
      ∃ rots', vcLoop nowUnix fSize regen cOk compOk dOk fuel rots idx (some k) res count =
          some (res, rots', count) ∧
        rots'.length = rots.length ∧
        ∀ j, rots'[j]? = if idx ≤ j ∧ j < k then (rots[j]?).map (fun r => regen r.rotationType)
          else rots[j]? := by
  intro fuel
  induction fuel with
  | zero => intro rots idx res count hk hklen hle hfuel; omega
  | succ f ih =>
    intro rots idx res count hk hklen hle hfuel
    by_cases heq : idx = k
    · subst heq
      refine ⟨rots, ?_, rfl, fun j => by rw [if_neg (by omega)]⟩
      rw [vcLoop, if_neg (by simp), if_pos rfl]
    · have hlt : idx < k := by omega
      have hidx : idx < rots.length := by omega
      have hrot : rots[idx]? = some (rots.get ⟨idx, hidx⟩) := by
        rw [List.getElem?_eq_getElem hidx]; rfl
      obtain ⟨rots', heq', hlen, hpt⟩ :=
        ih (rots.set idx (regen (rots.get ⟨idx, hidx⟩).rotationType)) (idx + 1) res count
          hk (by rw [List.length_set]; omega) (by omega) (by omega)
      refine ⟨rots', ?_, by rw [hlen, List.length_set], ?_⟩
      · rw [vcLoop, if_neg (by simp), if_neg (by simp; omega)]
        have hreset : ¬ (idx ≥ rots.length ∧ (some k : Option Nat) ≠ none) := by
          simp; omega
        simp only [hreset, if_false, ite_false]
        rw [if_neg (by simp; omega)]
        rw [hrot]
        simp only [if_pos (Or.inr (by simp : (some k : Option Nat) ≠ none))]
        rw [if_neg (by simp)]
        exact heq'
      · intro j
        by_cases hj : idx = j
        · subst hj
          rw [hpt idx]
          rw [if_neg (show ¬ (idx + 1 ≤ idx ∧ idx < k) by omega)]
          rw [List.getElem?_set, if_pos rfl, if_pos hidx]
          rw [if_pos (show idx ≤ idx ∧ idx < k from ⟨le_refl idx, hlt⟩)]
          rw [hrot]
          rfl
        · rw [hpt j, List.getElem?_set, if_neg hj]
          by_cases hcond : idx + 1 ≤ j ∧ j < k
          · rw [if_pos hcond, if_pos (by omega)]
          · rw [if_neg hcond, if_neg (by omega)]

/-- Right phase: with `last = some k` (`0 < k < |rots|`), scanning from
`idx > k` regenerates the rules at indices `[idx, |rots|)` and then, after
the wrap to index 0, those at `[0, k)`. -/
theorem vcLoop_right (nowUnix fSize : Nat) (regen : RotationType → Rotation)
    (cOk compOk dOk : Bool) (k : Nat) :
    ∀ fuel rots idx res count, 0 < k → k < (rots : List Rotation).length → k < idx →
      idx ≤ rots.length → (rots.length - idx) + k + 2 ≤ fuel →
      ∃ rots', vcLoop nowUnix fSize regen cOk compOk dOk fuel rots idx (some k) res count =
          some (res, rots', count) ∧
        rots'.length = rots.length ∧
        ∀ j, rots'[j]? = if j < k ∨ idx ≤ j then (rots[j]?).map (fun r => regen r.rotationType)
          else rots[j]? := by
  intro fuel
  induction fuel with
  | zero => intro rots idx res count hk hklen hki hile hfuel; omega
  | succ f ih =>
    intro rots idx res count hk hklen hki hile hfuel
    by_cases hend : idx = rots.length
    · subst hend
      have h0 : 0 < rots.length := by omega
      have hrot : rots[0]? = some (rots.get ⟨0, h0⟩) := by
        rw [List.getElem?_eq_getElem h0]; rfl
      obtain ⟨rots', heq', hlen, hpt⟩ :=
        vcLoop_left nowUnix fSize regen cOk compOk dOk k f
          (rots.set 0 (regen (rots.get ⟨0, h0⟩).rotationType)) 1 res count
          hk (by rw [List.length_set]; omega) (by omega) (by omega)
      refine ⟨rots', ?_, by rw [hlen, List.length_set], ?_⟩
      · rw [vcLoop, if_neg (by simp), if_neg (by simp; omega)]
        have hreset : (if rots.length ≥ rots.length ∧ (some k : Option Nat) ≠ none then 0
            else rots.length) = 0 := by simp
        simp only [hreset]
        rw [if_neg (show ¬ ((some k : Option Nat) = some 0) by simp; omega)]
        rw [hrot]
        simp only [if_pos (Or.inr (by simp : (some k : Option Nat) ≠ none))]
        rw [if_neg (by simp)]
        exact heq'
      · intro j
        by_cases hj : j = 0
        · subst hj
          rw [hpt 0]
          rw [if_neg (show ¬ (1 ≤ 0 ∧ 0 < k) by omega)]
          rw [List.getElem?_set, if_pos rfl, if_pos h0]
          rw [if_pos (show 0 < k ∨ rots.length ≤ 0 from Or.inl hk)]
          rw [hrot]
          rfl
        · rw [hpt j, List.getElem?_set,
            if_neg (show ¬ (0 = j) by omega)]
          by_cases hcond : 1 ≤ j ∧ j < k
          · rw [if_pos hcond,
              if_pos (show j < k ∨ rots.length ≤ j from Or.inl hcond.2)]
          · rw [if_neg hcond]
            by_cases hjlen : j < rots.length
            · rw [if_neg (show ¬ (j < k ∨ rots.length ≤ j) by omega)]
            · have hnone : rots[j]? = none := by
                rw [List.getElem?_eq_none]; omega
              rw [hnone]
              by_cases hcond2 : j < k ∨ rots.length ≤ j
              · rw [if_pos hcond2]; rfl
              · rw [if_neg hcond2]
    · have hlt : idx < rots.length := by omega
      have hrot : rots[idx]? = some (rots.get ⟨idx, hlt⟩) := by
        rw [List.getElem?_eq_getElem hlt]; rfl
      obtain ⟨rots', heq', hlen, hpt⟩ :=
        ih (rots.set idx (regen (rots.get ⟨idx, hlt⟩).rotationType)) (idx + 1) res count
          hk (by rw [List.length_set]; omega) (by omega) (by rw [List.length_set]; omega)
          (by rw [List.length_set]; omega)
      refine ⟨rots', ?_, by rw [hlen, List.length_set], ?_⟩
      · rw [vcLoop, if_neg (by simp), if_neg (by simp; omega)]
        have hreset : (if idx ≥ rots.length ∧ (some k : Option Nat) ≠ none then 0
            else idx) = idx := by
          rw [if_neg (by simp; omega)]
        simp only [hreset]
        rw [if_neg (show ¬ ((some k : Option Nat) = some 0) by simp; omega)]
        rw [hrot]
        simp only [if_pos (Or.inr (by simp : (some k : Option Nat) ≠ none))]
        rw [if_neg (by simp)]
        exact heq'
      · intro j
        by_cases hj : idx = j
        · subst hj
          rw [hpt idx]
          rw [if_neg (show ¬ (idx < k ∨ idx + 1 ≤ idx) by omega)]
          rw [List.getElem?_set, if_pos rfl, if_pos hlt]
          rw [if_pos (show idx < k ∨ idx ≤ idx from Or.inr (le_refl idx))]
          rw [hrot]
          rfl
        · rw [hpt j, List.getElem?_set, if_neg hj]
          by_cases hcond : j < k ∨ idx + 1 ≤ j
          · rw [if_pos hcond, if_pos (show j < k ∨ idx ≤ j by omega)]
          · rw [if_neg hcond, if_neg (show ¬ (j < k ∨ idx ≤ j) by omega)]

/-- Scan phase: while no rule fires and `last_idx = -1`, the loop just
advances the index, consuming one fuel unit per rule. -/
theorem vcLoop_scan (nowUnix fSize : Nat) (regen : RotationType → Rotation)
    (cOk compOk dOk : Bool) :
    ∀ d fuel rots idx res count, idx + d ≤ (rots : List Rotation).length →
      (∀ j r, idx ≤ j → j < idx + d → rots[j]? = some r →
        rotFired nowUnix fSize r = false) →
      vcLoop nowUnix fSize regen cOk compOk dOk (fuel + d) rots idx none res count =
        vcLoop nowUnix fSize regen cOk compOk dOk fuel rots (idx + d) none res count := by
  intro d
  induction d with
  | zero => intro fuel rots idx res count hlen hno; rfl
  | succ e ih =>
    intro fuel rots idx res count hlen hno
    have hidx : idx < rots.length := by omega
    have hrot : rots[idx]? = some (rots.get ⟨idx, hidx⟩) := by
      rw [List.getElem?_eq_getElem hidx]; rfl
    have hstep : vcLoop nowUnix fSize regen cOk compOk dOk (fuel + e + 1) rots idx none res count
        = vcLoop nowUnix fSize regen cOk compOk dOk (fuel + e) rots (idx + 1) none res count := by
      rw [vcLoop, if_neg (by simp; omega), if_neg (by simp)]
      have hreset : (if idx ≥ rots.length ∧ (none : Option Nat) ≠ none then 0
          else idx) = idx := by simp
      simp only [hreset]
      rw [if_neg (by simp)]
      simp only [hrot]
      rw [if_neg (show ¬ (rotFired nowUnix fSize (rots.get ⟨idx, hidx⟩) = true ∨
          (none : Option Nat) ≠ none) by
        simp only [ne_eq, not_true_eq_false, or_false, not_not]
        have hthis := hno idx (rots.get ⟨idx, hidx⟩) (le_refl idx) (by omega) hrot
        rw [List.get_eq_getElem] at hthis
        simp [hthis])]
    have harith : fuel + (e + 1) = fuel + e + 1 := by omega
    rw [harith, hstep]
    rw [ih fuel rots (idx + 1) res count (by omega)
      (fun j r hj1 hj2 hr => hno j r (by omega) (by omega) hr)]
    have : idx + 1 + e = idx + (e + 1) := by omega
    rw [this]

/-! ## Claim theorems -/

/-- C1: the spec states `"n KB"` parses to a `Size` rule of `n*1024` bytes
(and `MB`/`GB`/`TB` to `n*1024^2`/`n*1024^3`/`n*1024^4`). The code's
multipliers are each a factor of 1024 short: `" KB"` gets multiplier `1`,
so `"1 KB"` yields `Size 1`, not `Size 1024`. -/
theorem c1_kb_multiplier_off_by_1024 :
    RotationType.tryFromStringS "1 KB" = some (.Size 1) ∧
    RotationType.tryFromStringS "1 MB" = some (.Size 1024) ∧
    RotationType.tryFromStringS "1 GB" = some (.Size (1024 * 1024)) ∧
    RotationType.tryFromStringS "1 TB" = some (.Size (1024 * 1024 * 1024)) ∧
    (1 : Nat) * 1024 ≠ 1 := by decide

/-- C2 (counterexample): `"{text}"` names none of the seven known
placeholders, yet compilation succeeds — `get_parts_str` also lists
`"text"`, the integrity check passes, and `From<&str>` silently substitutes
an empty literal segment. -/
theorem c2_brace_text_accepted :
    parseStringToWrappersS "{text}" = .ok [⟨none, .Text []⟩, ⟨none, .Text []⟩] := by decide

/-- C2 (amended): for every template containing a bracket block `{name}` —
any prefix, any suffix — whose name is not an entry of `get_parts_str`
(i.e. not one of the seven placeholders and not the extra entry `"text"`),
compilation fails with a hard error; the one unknown name that slips
through is `"text"`, which compiles to an empty literal segment. -/
theorem c2_unknown_placeholder_rejected (pre post name : List Char)
    (hstruct : ∀ c ∈ name, c ∉ ['{', '}', '<', '>'])
    (hunk : name ∉ LogPart.getPartsStr) :
    (∃ e, parseStringToWrappers (pre ++ '{' :: (name ++ '}' :: post)) =
        .error (.UnableToParseSymbolsToParts e)) ∧
    parseStringToWrappersS "{text}" = .ok [⟨none, .Text []⟩, ⟨none, .Text []⟩] := by
  refine ⟨?_, by decide⟩
  obtain ⟨accP, sP, h1⟩ := stringParse_append pre ('{' :: (name ++ '}' :: post)) [] .Start
  have h2 : stringParse ('{' :: (name ++ '}' :: post)) accP sP =
      stringParse post [] (.AndNext (.AndNext (.AndNext (.AndNext sP (.Text accP))
        .BracketOpen) (.Text name)) .BracketClose) := by
    rw [stringParse_step_bracketOpen]
    rw [stringParse_run name hstruct ('}' :: post) [] _]
    rw [List.nil_append]
    rw [stringParse_step_bracketClose]
  obtain ⟨ts, h3⟩ := parseSymbsSpine_stringParse post []
    (.AndNext (.AndNext (.AndNext (.AndNext sP (.Text accP)) .BracketOpen)
      (.Text name)) .BracketClose)
  have htoks : parseSymbsToVec (stringParse (pre ++ '{' :: (name ++ '}' :: post)) [] .Start) =
      ((parseSymbsSpine sP).reverse ++ [.Text accP]) ++
        .BracketOpen :: .Text name :: .BracketClose :: ts.reverse := by
    rw [h1, h2]
    unfold parseSymbsToVec
    rw [h3]
    have hsp : parseSymbsSpine (ParseSymbs.AndNext (.AndNext (.AndNext (.AndNext sP
        (.Text accP)) .BracketOpen) (.Text name)) .BracketClose) =
        [.BracketClose, .Text name, .BracketOpen, .Text accP] ++ parseSymbsSpine sP := rfl
    rw [hsp]
    simp [List.reverse_append]
  cases hscan : parseSymbsScan
      (parseSymbsToVec (stringParse (pre ++ '{' :: (name ++ '}' :: post)) [] .Start)) with
  | error e =>
    have hvec : parseVecOfParseSymbToParts
        (parseSymbsToVec (stringParse (pre ++ '{' :: (name ++ '}' :: post)) [] .Start)) =
        .error e := by
      unfold parseVecOfParseSymbToParts
      rw [hscan]
    refine ⟨e, ?_⟩
    unfold parseStringToWrappers
    rw [hvec]
  | ok parts =>
    have hmem : ParseParts.BracketBlock name ∈ parts := by
      rw [htoks] at hscan
      exact parseSymbsScan_mem_bracket
        (((parseSymbsSpine sP).reverse ++ [ParseSymbs.Text accP]).length) _ _ name parts
        (le_refl _) hscan
    have hfalse : false ∈ parts.map ParseParts.verifyColorBlockIntegriy := by
      refine List.mem_map.mpr ⟨.BracketBlock name, hmem, ?_⟩
      simp [ParseParts.verifyColorBlockIntegriy, hunk]
    have hvec : parseVecOfParseSymbToParts
        (parseSymbsToVec (stringParse (pre ++ '{' :: (name ++ '}' :: post)) [] .Start)) =
        .error .IncorrectDataGiven := by
      unfold parseVecOfParseSymbToParts
      rw [hscan]
      show (if false ∈ parts.map ParseParts.verifyColorBlockIntegriy then
          (Except.error ParseSymbToPartsError.IncorrectDataGiven :
            Except ParseSymbToPartsError (List ParseParts))
        else Except.ok parts) = Except.error ParseSymbToPartsError.IncorrectDataGiven
      rw [if_pos hfalse]
    refine ⟨ParseSymbToPartsError.IncorrectDataGiven, ?_⟩
    unfold parseStringToWrappers
    rw [hvec]

theorem c2_unknown_placeholder_rejected_witness :
    (∀ c ∈ "foo".data, c ∉ ['{', '}', '<', '>']) ∧
    "foo".data ∉ LogPart.getPartsStr ∧
    ((∃ e, parseStringToWrappers ("a".data ++ '{' :: ("foo".data ++ '}' :: "b".data)) =
        .error (.UnableToParseSymbolsToParts e)) ∧
      parseStringToWrappersS "{text}" = .ok [⟨none, .Text []⟩, ⟨none, .Text []⟩]) :=
  ⟨by decide, by decide,
    c2_unknown_placeholder_rejected "a".data "b".data "foo".data (by decide) (by decide)⟩

/-- C3 (counterexample): when the rule at index 0 fires, the `last_idx == 0`
early break ends the scan before any other rule is visited: here the
`Period 10` rule at index 1 keeps its stale trigger `100` although its
regenerated value at this instant would be `10`, contradicting the claim
that every rule is regenerated. -/
theorem c3_first_rule_fire_skips_other_rules :
    verifyConstraints 0 1 (Rotation.initFromRotationType 0 0 0) true true true
        [⟨.Size 0, 0⟩, ⟨.Period 10, 100⟩] =
      some (.ok .NewFileCreated, [⟨.Size 0, 0⟩, ⟨.Period 10, 100⟩], 1) ∧
    Rotation.initFromRotationType 0 0 0 (.Period 10) = ⟨.Period 10, 10⟩ ∧
    (⟨.Period 10, 100⟩ : Rotation) ≠ ⟨.Period 10, 10⟩ := by decide

/-- C3 (amended): when the first firing rule sits at index `k`, exactly one
physical rotation is performed (the count is 1); if `0 < k` every rule's
trigger is regenerated, but if `k = 0` only rule 0 is regenerated — the
`last_idx == 0` early break leaves every other rule untouched. -/
theorem c3_rotation_regenerates_rules (nowUnix fSize : Nat)
    (regen : RotationType → Rotation) (compressOk deleteOk : Bool)
    (rots : List Rotation) (k : Nat) (rk : Rotation)
    (hk : rots[k]? = some rk)
    (hfired : rotFired nowUnix fSize rk = true)
    (hprev : ∀ j r, j < k → rots[j]? = some r → rotFired nowUnix fSize r = false) :
    ∃ rots', verifyConstraints nowUnix fSize regen true compressOk deleteOk rots =
        some (rotResult compressOk deleteOk, rots', 1) ∧
      rots'.length = rots.length ∧
      (0 < k → ∀ j : Nat, rots'[j]? = (rots[j]?).map (fun r => regen r.rotationType)) ∧
      (k = 0 → rots'[0]? = (rots[0]?).map (fun r => regen r.rotationType) ∧
        ∀ j : Nat, 0 < j → rots'[j]? = rots[j]?) := by
  have hklen : k < rots.length := by
    by_contra hcon
    rw [List.getElem?_eq_none (by omega)] at hk
    exact Option.noConfusion hk
  simp only [rotResult]
  unfold verifyConstraints
  have hFk : 2 * rots.length + 3 = (2 * rots.length + 3 - k) + k := by omega
  rw [hFk]
  rw [vcLoop_scan nowUnix fSize regen true compressOk deleteOk k (2 * rots.length + 3 - k)
    rots 0 (Except.ok .ConstraintsPassed) 0 (by omega)
    (fun j r hj1 hj2 hr => hprev j r (by omega) hr)]
  simp only [Nat.zero_add]
  obtain ⟨g, hg⟩ : ∃ g, 2 * rots.length + 3 - k = g + 1 := ⟨2 * rots.length + 2 - k, by omega⟩
  rw [hg, vcLoop, if_neg (by simp; omega), if_neg (by simp)]
  have hreset : (if k ≥ rots.length ∧ (none : Option Nat) ≠ none then 0 else k) = k := by simp
  simp only [hreset]
  rw [if_neg (by simp)]
  simp only [hk]
  rw [if_pos (Or.inl hfired)]
  simp only [if_true, ite_true, Nat.zero_add]
  by_cases hk0 : k = 0
  · subst hk0
    rw [vcLoop_stop_last_zero nowUnix fSize regen true compressOk deleteOk g _ _ _ _ (by omega)]
    refine ⟨rots.set 0 (regen rk.rotationType), ?_, by rw [List.length_set], ?_, ?_⟩
    · rfl
    · intro h0; omega
    · intro _
      constructor
      · rw [List.getElem?_set, if_pos rfl, if_pos (by omega), hk]
        rfl
      · intro j hj
        rw [List.getElem?_set, if_neg (by omega)]
  · have hkpos : 0 < k := by omega
    obtain ⟨rots', heq', hlen, hpt⟩ :=
      vcLoop_right nowUnix fSize regen true compressOk deleteOk k g
        (rots.set k (regen rk.rotationType)) (k + 1)
        (if compressOk = true then (if deleteOk = true then Except.ok .NewFileCreated
            else Except.error .UnableToDeleteOldLogFile)
          else Except.error .UnableToCompressFile) 1
        hkpos (by rw [List.length_set]; omega) (by omega)
        (by rw [List.length_set]; omega) (by rw [List.length_set]; omega)
    rw [heq']
    refine ⟨rots', rfl, by rw [hlen, List.length_set], ?_, fun h => absurd h hk0⟩
    intro _ j
    by_cases hj : j = k
    · subst hj
      rw [hpt j]
      rw [if_neg (show ¬ (j < j ∨ j + 1 ≤ j) by omega)]
      rw [List.getElem?_set, if_pos rfl, if_pos (by omega), hk]
      rfl
    · rw [hpt j]
      rw [if_pos (show j < k ∨ k + 1 ≤ j by omega)]
      rw [List.getElem?_set, if_neg (by omega)]

theorem c3_rotation_regenerates_rules_witness :
    ([⟨.Period 10, 100⟩, ⟨.Size 0, 0⟩] : List Rotation)[1]? = some ⟨.Size 0, 0⟩ ∧
    rotFired 0 1 ⟨.Size 0, 0⟩ = true ∧
    (∃ rots', verifyConstraints 0 1 (Rotation.initFromRotationType 0 0 0) true true true
        [⟨.Period 10, 100⟩, ⟨.Size 0, 0⟩] = some (rotResult true true, rots', 1) ∧
      rots'.length = ([⟨.Period 10, 100⟩, ⟨.Size 0, 0⟩] : List Rotation).length ∧
      (0 < 1 → ∀ j : Nat, rots'[j]? =
        (([⟨.Period 10, 100⟩, ⟨.Size 0, 0⟩] : List Rotation)[j]?).map
          (fun r => Rotation.initFromRotationType 0 0 0 r.rotationType)) ∧
      (1 = 0 → rots'[0]? =
          (([⟨.Period 10, 100⟩, ⟨.Size 0, 0⟩] : List Rotation)[0]?).map
            (fun r => Rotation.initFromRotationType 0 0 0 r.rotationType) ∧
        ∀ j : Nat, 0 < j → rots'[j]? =
          ([⟨.Period 10, 100⟩, ⟨.Size 0, 0⟩] : List Rotation)[j]?)) :=
  ⟨by decide, by decide,
    c3_rotation_regenerates_rules 0 1 (Rotation.initFromRotationType 0 0 0) true true
      [⟨.Period 10, 100⟩, ⟨.Size 0, 0⟩] 1 ⟨.Size 0, 0⟩ (by decide) (by decide)
      (by
        intro j r hj hr
        interval_cases j
        simp only [List.getElem?_cons_zero, Option.some.injEq] at hr
        subst hr
        decide)⟩

/-- C4 (counterexample): with a firing `Size 0` rule whose archive step
fails, `verify_constraints` produces `UnableToCompressFile`, yet `write_log`
returns `Ok` — the rotation error is *not* surfaced in the returned
result, contradicting the claim. -/
theorem c4_rotation_error_not_surfaced :
    (writeLog 0 1 (Rotation.initFromRotationType 0 0 0) true false true
        [⟨.Size 0, 0⟩] true).1 = .ok () ∧
    verifyConstraints 0 1 (Rotation.initFromRotationType 0 0 0) true false true
        [⟨.Size 0, 0⟩] =
      some (.error .UnableToCompressFile, [⟨.Size 0, 0⟩], 1) := by decide

/-- C4 (amended): `write_log` binds the `verify_constraints` outcome to an
unused variable; its returned result is `Ok` exactly when the final append
succeeds, independently of any ensure/create/rotate error (which is only
printed to stderr), and the append is attempted in every case. -/
theorem c4_append_result_independent_of_rotation_errors
    (nowUnix fSize : Nat) (regen : RotationType → Rotation)
    (createOk compressOk deleteOk : Bool) (rots : List Rotation) (appendOk : Bool) :
    (writeLog nowUnix fSize regen createOk compressOk deleteOk rots appendOk).1 =
      (if appendOk then .ok () else .error .UnableToWriteToFile) ∧
    (writeLog nowUnix fSize regen createOk compressOk deleteOk rots appendOk).2.2 = true ∧
    ∀ createOk' compressOk' deleteOk',
      (writeLog nowUnix fSize regen createOk' compressOk' deleteOk' rots appendOk).1 =
        (writeLog nowUnix fSize regen createOk compressOk deleteOk rots appendOk).1 :=
  ⟨rfl, rfl, fun _ _ _ => rfl⟩

/-- C5 (counterexample): with a time-free template, a colliding current name
and a fresh expansion that also collides, the code increments the probe
name, then creates the *fresh* expansion anyway (truncating the existing
file), returning a name with no disambiguator — while the claim's
re-expand-first-then-disambiguate policy would create `app(1).log`. -/
theorem c5_collision_policy_differs :
    createNewFile ["app.log".data]
        ⟨"app".data, none, "log".data⟩ ⟨"app".data, none, "log".data⟩ =
      some (⟨"app".data, none, "log".data⟩, ["app.log".data, "app.log".data]) ∧
    createNewFileSpec ["app.log".data]
        ⟨"app".data, none, "log".data⟩ ⟨"app".data, none, "log".data⟩ =
      some (⟨"app".data, some 1, "log".data⟩, ["app(1).log".data, "app.log".data]) ∧
    (⟨"app".data, none, "log".data⟩ : FileName) ≠ ⟨"app".data, some 1, "log".data⟩ := by
  decide

/-- C5 (amended): `create_new_file` increments the numeric disambiguator
only on unexpanded probe names; as soon as a probe does not exist it creates
the freshly re-expanded template name unconditionally (no collision check on
it, never carrying the disambiguator), and the collision loop terminates for
every finite set of existing files within `|fs| + 1` probes. -/
theorem c5_create_new_file_returns_fresh_expansion
    (fs : List (List Char)) (fn fresh : FileName) :
    createNewFile fs fn fresh = some (fresh, fresh.fullName :: fs) :=
  createNewFileLoop_of_free fs fresh (fs.length + 1) fn (exists_free_probe fs fn)

/-- C6: the rotation path archives into the hardcoded directory
`./loggit_archives/`, ignoring both the configured archive directory and
the platform default: for a configured directory `arch_123` the claim (and
the repository's own test `tests/archivation_rotation.rs`) expect
`arch_123/f.log.zip`, but `compress_zip` writes
`./loggit_archives/f.log.zip`. -/
theorem c6_archive_dir_ignored :
    compressZipPath "f.log".data = "./loggit_archives/f.log.zip".data ∧
    defaultArchiveDir (some "arch_123".data) "/sys/data".data = "arch_123".data ∧
    compressZipPath "f.log".data ≠ "arch_123".data ++ "/f.log.zip".data := by decide

/-- C7: `"<red>hello<blue>"` opens `red`, never closes it with a same-name
tag, and opens a different color while `red` is still open — the claim says
compilation must fail — yet the code compiles it successfully (the
mismatched-close arm of `parse_parts_to_formatter` is unreachable because
its guard compares the open color with itself), colouring `hello` red and
treating `<blue>` as the closer. -/
theorem c7_mismatched_color_tags_accepted :
    parseStringToWrappersS "<red>hello<blue>" =
      .ok [⟨none, .Text []⟩, ⟨some .Red, .Text "hello".data⟩] := by decide

/-- C8: a rotation-rule string that parses to no rule (such as `"invalid"`)
makes `add_rotation` return failure and leave the rule list untouched; an
invalid compression string likewise leaves the compression setting
untouched. -/
theorem c8_rejection_without_mutation (fc : FileConstraints)
    (nowUnix currH currM : Nat) (s t : List Char)
    (hs : RotationType.tryFromString s = none)
    (ht : CompressionType.tryFromString t = none) :
    fc.addRotation nowUnix currH currM s = (false, fc) ∧
    fc.setCompression t = (false, fc) ∧
    RotationType.tryFromStringS "invalid" = none := by
  refine ⟨?_, ?_, by decide⟩
  · unfold FileConstraints.addRotation
    rw [hs]
  · unfold FileConstraints.setCompression
    rw [ht]

theorem c8_rejection_without_mutation_witness :
    RotationType.tryFromString "invalid".data = none ∧
    CompressionType.tryFromString "zap".data = none ∧
    (FileConstraints.addRotation ⟨none, []⟩ 0 0 0 "invalid".data = (false, ⟨none, []⟩) ∧
      FileConstraints.setCompression ⟨none, []⟩ "zap".data = (false, ⟨none, []⟩) ∧
      RotationType.tryFromStringS "invalid" = none) :=
  ⟨by decide, by decide,
    c8_rejection_without_mutation ⟨none, []⟩ 0 0 0 "invalid".data "zap".data
      (by decide) (by decide)⟩

/-- C9: a record reaches the sinks iff `record.level >= threshold` under
TRACE < DEBUG < INFO < WARN < ERROR; strictly below the threshold there is
neither terminal output nor a file write. -/
theorem c9_level_filtering (cfg : ConfigView) (lvl : Level) :
    (lvl.toNat < cfg.level.toNat → dispatchLog cfg lvl = (false, false)) ∧
    (cfg.printToTerminal = true ∨ cfg.fileManagerSet = true →
      (((dispatchLog cfg lvl).1 = true ∨ (dispatchLog cfg lvl).2 = true) ↔
        cfg.level.toNat ≤ lvl.toNat)) ∧
    Level.TRACE.toNat < Level.DEBUG.toNat ∧ Level.DEBUG.toNat < Level.INFO.toNat ∧
    Level.INFO.toNat < Level.WARN.toNat ∧ Level.WARN.toNat < Level.ERROR.toNat := by
  refine ⟨?_, ?_, by decide, by decide, by decide, by decide⟩
  · intro h
    simp only [dispatchLog, Level.ge]
    rw [if_neg]
    simp only [decide_eq_true_eq]
    omega
  · intro hsink
    simp only [dispatchLog, logHandler, Level.ge]
    by_cases hle : cfg.level.toNat ≤ lvl.toNat
    · rw [if_pos (by simpa using hle)]
      simp only [iff_true_intro hle, iff_true]
      exact hsink
    · rw [if_neg (by simpa using hle)]
      simpa using hle

/-- C10: a `Size s` rule fires only when the file's byte size strictly
exceeds `s` (a file of exactly `s` bytes does not rotate), and resetting a
`Size s` rule via `Rotation::init_from_rotation_type` reproduces the trigger
`s` unchanged. -/
theorem c10_size_rule_strict_threshold (s fSize nowUnix currH currM : Nat) :
    Rotation.initFromRotationType nowUnix currH currM (.Size s) = ⟨.Size s, s⟩ ∧
    (fSize ≤ s → ∀ createOk compressOk deleteOk,
      verifyConstraints nowUnix fSize (Rotation.initFromRotationType nowUnix currH currM)
          createOk compressOk deleteOk [⟨.Size s, s⟩] =
        some (.ok .ConstraintsPassed, [⟨.Size s, s⟩], 0)) ∧
    (s < fSize →
      verifyConstraints nowUnix fSize (Rotation.initFromRotationType nowUnix currH currM)
          true true true [⟨.Size s, s⟩] =
        some (.ok .NewFileCreated, [⟨.Size s, s⟩], 1)) := by
  refine ⟨rfl, ?_, ?_⟩
  · intro hle cOk compOk dOk
    have hf : ¬ (fSize > s) := by omega
    simp [verifyConstraints, vcLoop, rotFired, hf]
  · intro hgt
    simp [verifyConstraints, vcLoop, rotFired, hgt, Rotation.initFromRotationType]

theorem c10_size_rule_strict_threshold_witness :
    (1024 ≤ 1024 ∧
      verifyConstraints 0 1024 (Rotation.initFromRotationType 0 0 0) true true true
          [⟨.Size 1024, 1024⟩] =
        some (.ok .ConstraintsPassed, [⟨.Size 1024, 1024⟩], 0)) ∧
    (1024 < 1025 ∧
      verifyConstraints 0 1025 (Rotation.initFromRotationType 0 0 0) true true true
          [⟨.Size 1024, 1024⟩] =
        some (.ok .NewFileCreated, [⟨.Size 1024, 1024⟩], 1)) :=
  ⟨⟨by decide, (c10_size_rule_strict_threshold 1024 1024 0 0 0).2.1 (by decide) true true true⟩,
    ⟨by decide, (c10_size_rule_strict_threshold 1024 1025 0 0 0).2.2 (by decide)⟩⟩

theorem c9_level_filtering_witness :
    (Level.INFO.toNat < Level.WARN.toNat ∧
      dispatchLog ⟨.WARN, true, false⟩ .INFO = (false, false)) ∧
    ((true = true ∨ false = true) ∧
      (((dispatchLog ⟨.WARN, true, false⟩ .ERROR).1 = true ∨
          (dispatchLog ⟨.WARN, true, false⟩ .ERROR).2 = true) ↔
        Level.WARN.toNat ≤ Level.ERROR.toNat)) :=
  ⟨⟨by decide, (c9_level_filtering ⟨.WARN, true, false⟩ .INFO).1 (by decide)⟩,
    ⟨Or.inl rfl, (c9_level_filtering ⟨.WARN, true, false⟩ .ERROR).2.1 (Or.inl rfl)⟩⟩

end Loggit
